import Mathlib

/-!
Verification of the UnipdSkin capacitive matrix driver.

The driver (UnipdSkin.h / UnipdSkin.cpp) owns two flags (isInit, rawData),
two active-line masks (TX_lines, RX_lines), and a flat grid of samples.
Public calls: init(), useRawData(bool), updated().  The scan loop
getRawData() walks the active TX rows, reads a burst of 2 * NUM_RX bytes per
row, combines byte pairs into 16-bit samples, and stores them compacted into
the grid.  The bus transport is modelled by its observable behaviour: the
status it reports for a register write, and the bytes it delivers for a
burst read.
-/

set_option maxRecDepth 8000

namespace UnipdSkin

/-- I2C device address of the matrix controller (header constant I2C_ADDRESS). -/
def I2C_ADDRESS : Nat := 0x38

/-- Mode register value MODE_NORMAL from the header. -/
def MODE_NORMAL : Nat := 0x00

/-- Mode register value MODE_TEST from the header. -/
def MODE_TEST : Nat := 0x40

/-- Number of RX (column) lines, header constant NUM_RX. -/
def NUM_RX : Nat := 12

/-- Number of TX (row) lines, header constant NUM_TX. -/
def NUM_TX : Nat := 21

/-- Public field num_RX of the class, set to NUM_RX. -/
def num_RX : Nat := NUM_RX

/-- Public field num_TX of the class, set to NUM_TX. -/
def num_TX : Nat := NUM_TX

/-- Private array RX_lines of the header: all NUM_RX entries true. -/
def RX_lines : List Bool := List.replicate NUM_RX true

/-- Private array TX_lines of the header: all NUM_TX entries true. -/
def TX_lines : List Bool := List.replicate NUM_TX true

/-- View of TX_lines as a function on physical line indices. -/
def txMask : Nat → Bool := fun t => TX_lines.getD t false

/-- View of RX_lines as a function on physical line indices. -/
def rxMask : Nat → Bool := fun r => RX_lines.getD r false

/-- Combination of high and low byte performed in getRawData:
(buffer[2 rxAddr] << 8) | buffer[2 rxAddr + 1]. -/
def combineBytes (hi lo : Nat) : Nat := (hi <<< 8) ||| lo

/-- Sequential stores into the flat grid, modelled as pointwise updates of a
function from flat index to stored value. -/
def applyWrites : (Nat → Nat) → List (Nat × Nat) → (Nat → Nat)
  | g, [] => g
  | g, w :: ws => applyWrites (fun k => if k = w.1 then w.2 else g k) ws

/-- Inner RX loop of getRawData for one selected TX row: for each rxAddr of the
remaining index list with RX_lines[rxAddr] true, emit the store of the combined
sample at flat index gridTxAddr * num_RX + gridRxAddr, then advance the
compaction counter gridRxAddr. -/
def rowWrites (rx : Nat → Bool) (buf : Nat → Nat) (gridTxAddr : Nat) :
    Nat → List Nat → List (Nat × Nat)
  | _, [] => []
  | gridRxAddr, rxAddr :: rest =>
    if rx rxAddr then
      (gridTxAddr * num_RX + gridRxAddr,
        combineBytes (buf (2 * rxAddr)) (buf (2 * rxAddr + 1)))
        :: rowWrites rx buf gridTxAddr (gridRxAddr + 1) rest
    else
      rowWrites rx buf gridTxAddr gridRxAddr rest

/-- Outer TX loop of getRawData: for each txAddr of the remaining index list
with TX_lines[txAddr] true, emit the grid stores of that row and advance the
compaction counter gridTxAddr.  bytes txAddr k is the byte at offset k of the
burst read performed while row txAddr is selected. -/
def scanAux (tx rx : Nat → Bool) (bytes : Nat → Nat → Nat) :
    Nat → List Nat → List (Nat × Nat)
  | _, [] => []
  | gridTxAddr, txAddr :: rest =>
    if tx txAddr then
      rowWrites rx (bytes txAddr) gridTxAddr 0 (List.range NUM_RX)
        ++ scanAux tx rx bytes (gridTxAddr + 1) rest
    else
      scanAux tx rx bytes gridTxAddr rest

/-- All grid stores performed by one call to getRawData, in program order. -/
def scanWrites (tx rx : Nat → Bool) (bytes : Nat → Nat → Nat) : List (Nat × Nat) :=
  scanAux tx rx bytes 0 (List.range NUM_TX)

/-- New grid contents after one getRawData scan over the previous grid g. -/
def getRawDataGrid (tx rx : Nat → Bool) (bytes : Nat → Nat → Nat) (g : Nat → Nat) :
    Nat → Nat :=
  applyWrites g (scanWrites tx rx bytes)

/-- Burst-buffer offsets read by the inner RX loop: 2 rxAddr and 2 rxAddr + 1
for every active rxAddr. -/
def rowReadOffsets (rx : Nat → Bool) : List Nat → List Nat
  | [] => []
  | rxAddr :: rest =>
    if rx rxAddr then 2 * rxAddr :: (2 * rxAddr + 1) :: rowReadOffsets rx rest
    else rowReadOffsets rx rest

/-- TX-select register writes issued by getRawData: for every active txAddr,
setRegister(0x01, NUM_TX - 1 - txAddr). -/
def scanRegWrites (tx : Nat → Bool) : List Nat → List (Nat × Nat)
  | [] => []
  | txAddr :: rest =>
    if tx txAddr then (0x01, NUM_TX - 1 - txAddr) :: scanRegWrites tx rest
    else scanRegWrites tx rest

/-- All register writes issued by one getRawData call: the combined mode write
0xC0 to register 0x00, then one TX-select write per active row. -/
def getRawDataRegWrites (tx : Nat → Bool) : List (Nat × Nat) :=
  (0x00, 0xC0) :: scanRegWrites tx (List.range NUM_TX)

/-- Drain loop of getRegisters: while the transport reports bytes available,
store the next byte at buffer[i] and increment i. -/
def drainBytes : (Nat → Nat) → Nat → List Nat → (Nat → Nat)
  | buffer, _, [] => buffer
  | buffer, i, b :: rest => drainBytes (fun k => if k = i then b else buffer k) (i + 1) rest

/-- getRegisters(reg, size, buffer): after the register-address write and the
requestFrom, the bytes the transport actually delivered are drained into the
buffer in arrival order starting at index 0; positions at and past the
delivered count keep their previous contents. -/
def getRegisters (reg size : Nat) (delivered : List Nat) (buffer : Nat → Nat) :
    Nat → Nat :=
  drainBytes buffer 0 delivered

/-- Mutable state of a UnipdSkin object: the isInit and rawData flags, whether
the grid pointer is non-null, how many allocations have happened, and the grid
contents as a function from flat index to stored value. -/
structure SkinState where
  isInit : Bool
  rawData : Bool
  gridAlloc : Bool
  allocCount : Nat
  grid : Nat → Nat

/-- State of a freshly constructed object (static storage zeroes the grid
pointer; both flags start false per the header initialisers). -/
def initialState : SkinState :=
  { isInit := false, rawData := false, gridAlloc := false, allocCount := 0,
    grid := fun _ => 0 }

/-- init(): issues the mode-register write setRegister(0x00, MODE_NORMAL) whose
transport status is the first argument.  On zero status it waits, marks isInit,
issues the calibration write setRegister(0xA7, 0x04) whose status calStatus is
discarded, and returns 0 (bool false); on non-zero status it prints an error
and returns 1 (bool true), leaving the state unchanged.  Result components:
new state, returned bool, register writes issued. -/
def initOp (st : SkinState) (status calStatus : Nat) :
    SkinState × Bool × List (Nat × Nat) :=
  if status = 0 then
    ({ st with isInit := true }, false, [(0x00, MODE_NORMAL), (0xA7, 0x04)])
  else
    (st, true, [(0x00, MODE_NORMAL)])

/-- useRawData(useRaw): records the flag, allocates the grid if the pointer is
still null, and, when initialised with useRaw true, issues the MODE_TEST write.
Result components: new state, register writes issued. -/
def useRawDataOp (st : SkinState) (useRaw : Bool) : SkinState × List (Nat × Nat) :=
  let st1 : SkinState := { st with rawData := useRaw }
  let st2 : SkinState :=
    if st1.gridAlloc then st1
    else { st1 with gridAlloc := true, allocCount := st1.allocCount + 1 }
  if st2.isInit && useRaw then (st2, [(0x00, MODE_TEST)]) else (st2, [])

/-- updated(): returns false when not initialised; when rawData is set it runs
getRawData, rewriting the grid from the scan's burst bytes, and returns true;
otherwise it returns false. -/
def updatedOp (st : SkinState) (bytes : Nat → Nat → Nat) : SkinState × Bool :=
  if !st.isInit then (st, false)
  else if st.rawData then
    ({ st with grid := getRawDataGrid txMask rxMask bytes st.grid }, true)
  else (st, false)

/-- One public call to the object, carrying the transport behaviour it
observes: the two write statuses for init, the flag for useRawData, and the
per-row burst bytes for updated. -/
inductive Call where
  | init (status calStatus : Nat)
  | useRawData (useRaw : Bool)
  | updated (bytes : Nat → Nat → Nat)

/-- State reached after one public call. -/
def stepCall (st : SkinState) : Call → SkinState
  | .init status calStatus => (initOp st status calStatus).1
  | .useRawData b => (useRawDataOp st b).1
  | .updated bytes => (updatedOp st bytes).1

/-- State reached after a sequence of public calls. -/
def runCalls (st : SkinState) (cs : List Call) : SkinState :=
  cs.foldl stepCall st

/-- Whether a call is a useRawData call. -/
def Call.isUseRaw : Call → Bool
  | .useRawData _ => true
  | _ => false

/-- Physical indices of the active TX lines, in ascending order. -/
def activeTX (tx : Nat → Bool) : List Nat := (List.range NUM_TX).filter tx

/-- Physical indices of the active RX lines, in ascending order. -/
def activeRX (rx : Nat → Bool) : List Nat := (List.range NUM_RX).filter rx

/-- Burst bytes used in concrete witnesses. -/
def bytesW : Nat → Nat → Nat := fun t k => (3 * t + k) % 256

/-- All-zero grid used in concrete witnesses. -/
def gZero : Nat → Nat := fun _ => 0

/-- TX mask of the counterexample configuration: physical lines 0 and 1 active. -/
def txC : Nat → Bool := fun t => decide (t < 2)

/-- RX mask of the counterexample configuration: only physical line 0 active. -/
def rxC : Nat → Bool := fun r => decide (r = 0)

/-- Burst bytes of the counterexample configuration: every byte of the burst
for row t equals t + 1. -/
def bytesC : Nat → Nat → Nat := fun t _ => t + 1

/-- Initialised raw-mode state used as a concrete scan witness. -/
def stRaw : SkinState :=
  { isInit := true, rawData := true, gridAlloc := true, allocCount := 1,
    grid := fun _ => 0 }

/-- Call sequence that reaches a scanning state. -/
def csRaw : List Call := [Call.init 0 0, Call.useRawData true]

/-- Call sequence that never calls useRawData. -/
def csNoRaw : List Call := [Call.init 0 0, Call.updated bytesW]

/-- Bytes delivered by the transport in the getRegisters witness. -/
def deliveredW : List Nat := [10, 20, 30]

theorem applyWrites_of_forall_ne (k : Nat) (ws : List (Nat × Nat)) :
    ∀ g : Nat → Nat, (∀ p ∈ ws, p.1 ≠ k) → applyWrites g ws k = g k := by
  induction ws with
  | nil => intro g _; rfl
  | cons w ws ih =>
    intro g h
    have hk : ¬ (k = w.1) := fun he => h w (List.mem_cons_self _ _) he.symm
    simp only [applyWrites]
    rw [ih _ (fun p hp => h p (List.mem_cons_of_mem _ hp))]
    exact if_neg hk

theorem applyWrites_of_mem (k v : Nat) (ws : List (Nat × Nat)) :
    ∀ g : Nat → Nat, (k, v) ∈ ws → (∀ p ∈ ws, p.1 = k → p.2 = v) →
      applyWrites g ws k = v := by
  induction ws with
  | nil => intro g h _; exact absurd h (List.not_mem_nil _)
  | cons w ws ih =>
    intro g hmem huniq
    by_cases hrest : ∃ p ∈ ws, p.1 = k
    · obtain ⟨⟨pa, pb⟩, hp, hpk⟩ := hrest
      simp only at hpk
      have hv : pb = v := huniq (pa, pb) (List.mem_cons_of_mem _ hp) hpk
      subst hpk; subst hv
      simp only [applyWrites]
      exact ih _ hp (fun q hq hqk => huniq q (List.mem_cons_of_mem _ hq) hqk)
    · push_neg at hrest
      simp only [applyWrites]
      rw [applyWrites_of_forall_ne k ws _ hrest]
      rcases List.mem_cons.mp hmem with he | hm
      · have h1 : w.1 = k := by rw [← he]
        have h2 : w.2 = v := by rw [← he]
        rw [if_pos h1.symm, h2]
      · exact absurd rfl (hrest (k, v) hm)

theorem range_getD (n i : Nat) (h : i < n) : (List.range n).getD i 0 = i := by
  simp [List.getD_eq_getElem?_getD, List.getElem?_range h]

theorem rowWrites_mem (rx : Nat → Bool) (buf : Nat → Nat) (gtx : Nat) (l : List Nat) :
    ∀ (j0 : Nat) (p : Nat × Nat),
      p ∈ rowWrites rx buf gtx j0 l ↔
        ∃ j, j < (l.filter rx).length ∧
          p = (gtx * num_RX + (j0 + j),
               combineBytes (buf (2 * ((l.filter rx).getD j 0)))
                            (buf (2 * ((l.filter rx).getD j 0) + 1))) := by
  induction l with
  | nil =>
    intro j0 p
    simp [rowWrites]
  | cons r rest ih =>
    intro j0 p
    by_cases hr : rx r = true
    · rw [show (r :: rest).filter rx = r :: rest.filter rx by simp [List.filter_cons, hr]]
      simp only [rowWrites, if_pos hr, List.mem_cons]
      constructor
      · rintro (he | hm)
        · refine ⟨0, Nat.succ_pos _, ?_⟩
          simpa using he
        · obtain ⟨j, hj, he⟩ := (ih (j0 + 1) p).mp hm
          refine ⟨j + 1, by simpa using Nat.succ_lt_succ hj, ?_⟩
          rw [he]
          simp only [List.getD_cons_succ, Prod.mk.injEq]
          exact ⟨by omega, trivial⟩
      · rintro ⟨j, hj, he⟩
        cases j with
        | zero =>
          left
          simpa using he
        | succ j =>
          right
          apply (ih (j0 + 1) p).mpr
          refine ⟨j, by simp only [List.length_cons] at hj; omega, ?_⟩
          rw [he]
          simp only [List.getD_cons_succ, Prod.mk.injEq]
          exact ⟨by omega, trivial⟩
    · rw [show (r :: rest).filter rx = rest.filter rx by simp [List.filter_cons, hr]]
      simp only [rowWrites, if_neg hr]
      exact ih j0 p

theorem scanAux_mem (tx rx : Nat → Bool) (bytes : Nat → Nat → Nat) (l : List Nat) :
    ∀ (gtx : Nat) (p : Nat × Nat),
      p ∈ scanAux tx rx bytes gtx l ↔
        ∃ i, i < (l.filter tx).length ∧
          p ∈ rowWrites rx (bytes ((l.filter tx).getD i 0)) (gtx + i) 0
                (List.range NUM_RX) := by
  induction l with
  | nil =>
    intro gtx p
    simp [scanAux]
  | cons t rest ih =>
    intro gtx p
    by_cases ht : tx t = true
    · rw [show (t :: rest).filter tx = t :: rest.filter tx by simp [List.filter_cons, ht]]
      simp only [scanAux, if_pos ht, List.mem_append]
      constructor
      · rintro (hrow | hrest)
        · refine ⟨0, Nat.succ_pos _, ?_⟩
          simpa using hrow
        · obtain ⟨i, hi, hm⟩ := (ih (gtx + 1) p).mp hrest
          refine ⟨i + 1, by simpa using Nat.succ_lt_succ hi, ?_⟩
          simp only [List.getD_cons_succ]
          have ha : gtx + (i + 1) = gtx + 1 + i := by omega
          rw [ha]
          exact hm
      · rintro ⟨i, hi, hm⟩
        cases i with
        | zero =>
          left
          simpa using hm
        | succ i =>
          right
          apply (ih (gtx + 1) p).mpr
          refine ⟨i, by simp only [List.length_cons] at hi; omega, ?_⟩
          have ha : gtx + 1 + i = gtx + (i + 1) := by omega
          rw [ha]
          simpa using hm
    · rw [show (t :: rest).filter tx = rest.filter tx by simp [List.filter_cons, ht]]
      simp only [scanAux, if_neg ht]
      exact ih gtx p

theorem rowWrites_length (rx : Nat → Bool) (buf : Nat → Nat) (gtx : Nat) (l : List Nat) :
    ∀ j0, (rowWrites rx buf gtx j0 l).length = (l.filter rx).length := by
  induction l with
  | nil => intro j0; rfl
  | cons r rest ih =>
    intro j0
    by_cases hr : rx r = true
    · rw [show (r :: rest).filter rx = r :: rest.filter rx by simp [List.filter_cons, hr]]
      simp only [rowWrites, if_pos hr, List.length_cons, ih]
    · rw [show (r :: rest).filter rx = rest.filter rx by simp [List.filter_cons, hr]]
      simp only [rowWrites, if_neg hr, ih]

theorem scanAux_length (tx rx : Nat → Bool) (bytes : Nat → Nat → Nat) (l : List Nat) :
    ∀ gtx, (scanAux tx rx bytes gtx l).length
      = (l.filter tx).length * ((List.range NUM_RX).filter rx).length := by
  induction l with
  | nil => intro gtx; simp [scanAux]
  | cons t rest ih =>
    intro gtx
    by_cases ht : tx t = true
    · rw [show (t :: rest).filter tx = t :: rest.filter tx by simp [List.filter_cons, ht]]
      simp only [scanAux, if_pos ht, List.length_append, List.length_cons]
      rw [rowWrites_length, ih]
      ring
    · rw [show (t :: rest).filter tx = rest.filter tx by simp [List.filter_cons, ht]]
      simp only [scanAux, if_neg ht]
      exact ih gtx

theorem combineBytes_eq_add (hi lo : Nat) (hlo : lo < 256) :
    combineBytes hi lo = 256 * hi + lo := by
  have hlo8 : lo < 2 ^ 8 := by simpa using hlo
  apply Nat.eq_of_testBit_eq
  intro j
  have hrhs : (256 : Nat) * hi + lo = 2 ^ 8 * hi + lo := by norm_num
  rw [hrhs, Nat.testBit_mul_pow_two_add hi hlo8 j]
  simp only [combineBytes, Nat.testBit_or, Nat.testBit_shiftLeft]
  by_cases hj : j < 8
  · have hd : ¬ (8 ≤ j) := by omega
    simp [hj, hd]
  · have hd : 8 ≤ j := by omega
    have hfalse : Nat.testBit lo j = false :=
      Nat.testBit_lt_two_pow
        (lt_of_lt_of_le hlo8 (Nat.pow_le_pow_right (by norm_num) hd))
    simp [hj, hd, hfalse]

theorem scan_value (tx rx : Nat → Bool) (bytes : Nat → Nat → Nat) (g : Nat → Nat)
    (i j : Nat) (hi : i < (activeTX tx).length) (hj : j < (activeRX rx).length) :
    applyWrites g (scanWrites tx rx bytes) (i * NUM_RX + j)
      = combineBytes
          (bytes ((activeTX tx).getD i 0) (2 * ((activeRX rx).getD j 0)))
          (bytes ((activeTX tx).getD i 0) (2 * ((activeRX rx).getD j 0) + 1)) := by
  have hBle : (activeRX rx).length ≤ 12 := by
    have h1 := List.length_filter_le rx (List.range NUM_RX)
    simpa [activeRX, NUM_RX] using h1
  apply applyWrites_of_mem
  · simp only [scanWrites]
    refine (scanAux_mem tx rx bytes (List.range NUM_TX) 0 _).mpr ⟨i, hi, ?_⟩
    refine (rowWrites_mem rx _ (0 + i) (List.range NUM_RX) 0 _).mpr ⟨j, hj, ?_⟩
    simp only [Prod.mk.injEq, Nat.zero_add]
    exact ⟨by simp only [num_RX], rfl⟩
  · intro p hp hpk
    simp only [scanWrites] at hp
    obtain ⟨i2, hi2, hrow⟩ := (scanAux_mem tx rx bytes (List.range NUM_TX) 0 p).mp hp
    obtain ⟨j2, hj2, he⟩ := (rowWrites_mem rx _ (0 + i2) (List.range NUM_RX) 0 p).mp hrow
    subst he
    simp only [Nat.zero_add] at hpk ⊢
    have hj' : j < 12 := lt_of_lt_of_le hj hBle
    have hj2' : j2 < 12 := lt_of_lt_of_le hj2 hBle
    have hpk' : i2 * 12 + j2 = i * 12 + j := by
      simpa [num_RX, NUM_RX] using hpk
    have hii : i2 = i := by omega
    have hjj : j2 = j := by omega
    subst hii; subst hjj
    rfl

theorem rowReadOffsets_mem (rx : Nat → Bool) (l : List Nat) (o : Nat) :
    o ∈ rowReadOffsets rx l → ∃ r ∈ l, o = 2 * r ∨ o = 2 * r + 1 := by
  induction l with
  | nil => intro h; simp [rowReadOffsets] at h
  | cons r rest ih =>
    intro h
    by_cases hr : rx r = true
    · simp only [rowReadOffsets, if_pos hr, List.mem_cons] at h
      rcases h with h | h | h
      · exact ⟨r, List.mem_cons_self _ _, Or.inl h⟩
      · exact ⟨r, List.mem_cons_self _ _, Or.inr h⟩
      · obtain ⟨r2, hr2, ho2⟩ := ih h
        exact ⟨r2, List.mem_cons_of_mem _ hr2, ho2⟩
    · simp only [rowReadOffsets, if_neg hr] at h
      obtain ⟨r2, hr2, ho2⟩ := ih h
      exact ⟨r2, List.mem_cons_of_mem _ hr2, ho2⟩

theorem scanRegWrites_eq (tx : Nat → Bool) (l : List Nat) :
    scanRegWrites tx l = (l.filter tx).map (fun a => (0x01, NUM_TX - 1 - a)) := by
  induction l with
  | nil => rfl
  | cons t rest ih =>
    by_cases ht : tx t = true
    · rw [show (t :: rest).filter tx = t :: rest.filter tx by simp [List.filter_cons, ht]]
      simp only [scanRegWrites, if_pos ht, List.map_cons, ih]
    · rw [show (t :: rest).filter tx = rest.filter tx by simp [List.filter_cons, ht]]
      simp only [scanRegWrites, if_neg ht, ih]

theorem drainBytes_lt (l : List Nat) :
    ∀ (buffer : Nat → Nat) (i0 k : Nat), k < i0 → drainBytes buffer i0 l k = buffer k := by
  induction l with
  | nil => intro buffer i0 k _; rfl
  | cons b rest ih =>
    intro buffer i0 k hk
    simp only [drainBytes]
    rw [ih _ (i0 + 1) k (by omega)]
    exact if_neg (by omega)

theorem drainBytes_ge (l : List Nat) :
    ∀ (buffer : Nat → Nat) (i0 k : Nat), i0 + l.length ≤ k →
      drainBytes buffer i0 l k = buffer k := by
  induction l with
  | nil => intro buffer i0 k _; rfl
  | cons b rest ih =>
    intro buffer i0 k hk
    simp only [List.length_cons] at hk
    simp only [drainBytes]
    rw [ih _ (i0 + 1) k (by omega)]
    exact if_neg (by omega)

theorem drainBytes_get (l : List Nat) :
    ∀ (buffer : Nat → Nat) (i0 k : Nat) (h : k < l.length),
      drainBytes buffer i0 l (i0 + k) = l.get ⟨k, h⟩ := by
  induction l with
  | nil => intro buffer i0 k h; exact absurd h (by simp)
  | cons b rest ih =>
    intro buffer i0 k h
    cases k with
    | zero =>
      simp only [drainBytes]
      rw [drainBytes_lt rest _ (i0 + 1) (i0 + 0) (by omega)]
      simp
    | succ k =>
      simp only [drainBytes]
      have ha : i0 + (k + 1) = (i0 + 1) + k := by omega
      simp only [List.length_cons] at h
      rw [ha, ih _ (i0 + 1) k (by omega)]
      rfl

/-- Claim C1 (amended): after one getRawData scan, exactly
countActive(tx) * countActive(rx) grid stores are performed, and the sample
for the pair (i-th active TX line, j-th active RX line) is stored at flat grid
index i * NUM_RX + j — row-major with the full physical RX width NUM_RX as the
row stride, not the active-RX count. -/
theorem claim_C1 (tx rx : Nat → Bool) (bytes : Nat → Nat → Nat) (g : Nat → Nat)
    (i j : Nat) (hi : i < (activeTX tx).length) (hj : j < (activeRX rx).length) :
    (scanWrites tx rx bytes).length = (activeTX tx).length * (activeRX rx).length
  ∧ applyWrites g (scanWrites tx rx bytes) (i * NUM_RX + j)
      = combineBytes
          (bytes ((activeTX tx).getD i 0) (2 * ((activeRX rx).getD j 0)))
          (bytes ((activeTX tx).getD i 0) (2 * ((activeRX rx).getD j 0) + 1)) := by
  constructor
  · simpa [scanWrites, activeTX, activeRX] using
      scanAux_length tx rx bytes (List.range NUM_TX) 0
  · exact scan_value tx rx bytes g i j hi hj

/-- Witness for claim C1 at the default all-active masks, compacted position
(0, 0). -/
theorem claim_C1_witness :
    (scanWrites txMask rxMask bytesW).length
        = (activeTX txMask).length * (activeRX rxMask).length
  ∧ applyWrites gZero (scanWrites txMask rxMask bytesW) (0 * NUM_RX + 0)
      = combineBytes
          (bytesW ((activeTX txMask).getD 0 0) (2 * ((activeRX rxMask).getD 0 0)))
          (bytesW ((activeTX txMask).getD 0 0) (2 * ((activeRX rxMask).getD 0 0) + 1)) :=
  claim_C1 txMask rxMask bytesW gZero 0 0 (by decide) (by decide)

/-- Counterexample to claim C1 as stated: with TX lines 0 and 1 active and only
RX line 0 active, the row-major-over-active-counts flat position of compacted
cell (1, 0) is 1 * countActive(rx) + 0 = 1, but after the scan grid[1] still
holds its old value rather than the sample read for physical TX line 1 and RX
line 0; that sample is stored at index 1 * NUM_RX + 0 = 12 instead. -/
theorem claim_C1_counterexample :
    ((activeTX txC).length = 2 ∧ (activeRX rxC).length = 1
      ∧ (activeTX txC).getD 1 0 = 1 ∧ (activeRX rxC).getD 0 0 = 0)
  ∧ ¬ (applyWrites gZero (scanWrites txC rxC bytesC) (1 * (activeRX rxC).length + 0)
        = combineBytes (bytesC ((activeTX txC).getD 1 0) (2 * ((activeRX rxC).getD 0 0)))
                       (bytesC ((activeTX txC).getD 1 0) (2 * ((activeRX rxC).getD 0 0) + 1)))
  ∧ applyWrites gZero (scanWrites txC rxC bytesC) (1 * NUM_RX + 0)
      = combineBytes (bytesC ((activeTX txC).getD 1 0) (2 * ((activeRX rxC).getD 0 0)))
                     (bytesC ((activeTX txC).getD 1 0) (2 * ((activeRX rxC).getD 0 0) + 1)) := by
  decide

/-- Claim C5: every scanned logical TX index t is selected by writing the
inverted address NUM_TX - 1 - t to the TX-select register 0x01, and the select
writes of one scan are exactly these, one per active line in ascending order. -/
theorem claim_C5 (tx : Nat → Bool) (t : Nat) (ht : t < NUM_TX) (hs : tx t = true) :
    (0x01, NUM_TX - 1 - t) ∈ getRawDataRegWrites tx
  ∧ scanRegWrites tx (List.range NUM_TX)
      = ((List.range NUM_TX).filter tx).map (fun a => (0x01, NUM_TX - 1 - a)) := by
  refine ⟨?_, scanRegWrites_eq tx (List.range NUM_TX)⟩
  apply List.mem_cons_of_mem
  rw [scanRegWrites_eq]
  exact List.mem_map.mpr ⟨t, List.mem_filter.mpr ⟨List.mem_range.mpr ht, hs⟩, rfl⟩

/-- Witness for claim C5: with the default mask, logical TX index 0 produces a
select write of value 20 and logical index 20 a select write of value 0. -/
theorem claim_C5_witness :
    (0x01, NUM_TX - 1 - 0) ∈ getRawDataRegWrites txMask
  ∧ (0x01, NUM_TX - 1 - 20) ∈ getRawDataRegWrites txMask :=
  ⟨(claim_C5 txMask 0 (by decide) (by decide)).1,
   (claim_C5 txMask 20 (by decide) (by decide)).1⟩

/-- Claim C6: a decoded sample combines the burst byte at offset 2 r as high
byte with the byte at offset 2 r + 1 as low byte — combineBytes hi lo equals
256 * hi + lo — bytes 0x12, 0x34 decode to 0x1234, and with all RX lines
active the scan row stores exactly that combination for column r. -/
theorem claim_C6 (buf : Nat → Nat) (hi lo r : Nat) (hlo : lo < 256) (hr : r < NUM_RX) :
    combineBytes hi lo = 256 * hi + lo
  ∧ combineBytes 0x12 0x34 = 0x1234
  ∧ (0 * num_RX + r, combineBytes (buf (2 * r)) (buf (2 * r + 1)))
      ∈ rowWrites rxMask buf 0 0 (List.range NUM_RX) := by
  refine ⟨combineBytes_eq_add hi lo hlo, by decide, ?_⟩
  have hB : (List.range NUM_RX).filter rxMask = List.range NUM_RX := by decide
  refine (rowWrites_mem rxMask buf 0 (List.range NUM_RX) 0 _).mpr ⟨r, ?_, ?_⟩
  · rw [hB, List.length_range]
    exact hr
  · rw [hB, range_getD _ _ hr]
    simp

/-- Witness for claim C6 at hi = 9, lo = 7, r = 3 with the witness burst. -/
theorem claim_C6_witness :
    combineBytes 9 7 = 256 * 9 + 7
  ∧ combineBytes 0x12 0x34 = 0x1234
  ∧ (0 * num_RX + 3, combineBytes (bytesW 0 (2 * 3)) (bytesW 0 (2 * 3 + 1)))
      ∈ rowWrites rxMask (bytesW 0) 0 0 (List.range NUM_RX) :=
  claim_C6 (bytesW 0) 9 7 3 (by decide) (by decide)

/-- Claim C7: getRegisters drains the transport-delivered bytes into the
buffer in arrival order starting at index 0 and stops when none are left:
position k receives the k-th delivered byte when k is below the delivered
count, and keeps its previous value otherwise — so the buffer may receive
fewer than the requested count bytes when the device under-delivers. -/
theorem claim_C7 (reg size k : Nat) (delivered : List Nat) (buffer : Nat → Nat) :
    (∀ h : k < delivered.length,
        getRegisters reg size delivered buffer k = delivered.get ⟨k, h⟩)
  ∧ (delivered.length ≤ k → getRegisters reg size delivered buffer k = buffer k) := by
  constructor
  · intro h
    have hd := drainBytes_get delivered buffer 0 k h
    simpa [getRegisters] using hd
  · intro h
    have hd := drainBytes_ge delivered buffer 0 k (by omega)
    simpa [getRegisters] using hd

/-- Witness for claim C7: three delivered bytes land at positions 0..2 and
position 7 keeps its previous value. -/
theorem claim_C7_witness :
    getRegisters 0x10 (2 * NUM_RX) deliveredW gZero 1 = deliveredW.get ⟨1, by decide⟩
  ∧ getRegisters 0x10 (2 * NUM_RX) deliveredW gZero 7 = gZero 7 :=
  ⟨(claim_C7 0x10 (2 * NUM_RX) 1 deliveredW gZero).1 (by decide),
   (claim_C7 0x10 (2 * NUM_RX) 7 deliveredW gZero).2 (by decide)⟩

/-- Claim C9: every grid store of getRawData targets a flat index strictly
below NUM_TX * NUM_RX, and every burst-buffer offset read by the inner RX loop
is strictly below 2 * NUM_RX, for every mask configuration. -/
theorem claim_C9 (tx rx : Nat → Bool) (bytes : Nat → Nat → Nat) (p : Nat × Nat)
    (o : Nat) (hp : p ∈ scanWrites tx rx bytes)
    (ho : o ∈ rowReadOffsets rx (List.range NUM_RX)) :
    p.1 < NUM_TX * NUM_RX ∧ o < 2 * NUM_RX := by
  constructor
  · simp only [scanWrites] at hp
    obtain ⟨i, hi, hrow⟩ := (scanAux_mem tx rx bytes (List.range NUM_TX) 0 p).mp hp
    obtain ⟨j, hj, he⟩ := (rowWrites_mem rx _ (0 + i) (List.range NUM_RX) 0 p).mp hrow
    have hiT : i < 21 := by
      have h1 := List.length_filter_le tx (List.range NUM_TX)
      rw [List.length_range] at h1
      simp only [NUM_TX] at h1 hi
      omega
    have hjR : j < 12 := by
      have h1 := List.length_filter_le rx (List.range NUM_RX)
      rw [List.length_range] at h1
      simp only [NUM_RX] at h1 hj
      omega
    have hp1 : p.1 = (0 + i) * num_RX + (0 + j) := by rw [he]
    rw [hp1]
    simp only [num_RX, NUM_TX, NUM_RX]
    omega
  · obtain ⟨r, hrl, hor⟩ := rowReadOffsets_mem rx (List.range NUM_RX) o ho
    have hr : r < 12 := by simpa [NUM_RX] using List.mem_range.mp hrl
    simp only [NUM_RX]
    omega

/-- Witness for claim C9: the first store of the default-mask scan targets
index 0 and the first burst offset is 0. -/
theorem claim_C9_witness :
    ((0, 1) : Nat × Nat).1 < NUM_TX * NUM_RX ∧ 0 < 2 * NUM_RX :=
  claim_C9 txMask rxMask bytesW ((0, 1) : Nat × Nat) 0 (by decide) (by decide)

theorem getRawDataGrid_default (bytes : Nat → Nat → Nat) (g : Nat → Nat) (k : Nat)
    (hk : k < NUM_TX * NUM_RX) :
    getRawDataGrid txMask rxMask bytes g k
      = combineBytes (bytes (k / NUM_RX) (2 * (k % NUM_RX)))
                     (bytes (k / NUM_RX) (2 * (k % NUM_RX) + 1)) := by
  have hA : activeTX txMask = List.range NUM_TX := by decide
  have hB : activeRX rxMask = List.range NUM_RX := by decide
  have hk' : k < 252 := by simpa [NUM_TX, NUM_RX] using hk
  have hdiv : k / NUM_RX < NUM_TX := by
    simp only [NUM_RX, NUM_TX]
    omega
  have hmod : k % NUM_RX < NUM_RX := by
    simp only [NUM_RX]
    omega
  have hi : k / NUM_RX < (activeTX txMask).length := by
    rw [hA, List.length_range]
    exact hdiv
  have hj : k % NUM_RX < (activeRX rxMask).length := by
    rw [hB, List.length_range]
    exact hmod
  have hmain := scan_value txMask rxMask bytes g (k / NUM_RX) (k % NUM_RX) hi hj
  rw [hA, hB, range_getD _ _ hdiv, range_getD _ _ hmod] at hmain
  have hidx : k / NUM_RX * NUM_RX + k % NUM_RX = k := by
    simp only [NUM_RX]
    omega
  rw [hidx] at hmain
  simpa [getRawDataGrid] using hmain

/-- Claim C2: updated() returns true exactly when isInit and rawData are both
set; in that case it performs one full scan that rewrites the whole grid
buffer before returning — every flat cell k < NUM_TX * NUM_RX receives the
freshly combined sample of row k / NUM_RX at burst offsets 2 (k % NUM_RX) and
2 (k % NUM_RX) + 1 — and in every other case it returns false with the state
unchanged. -/
theorem claim_C2 (st : SkinState) (bytes : Nat → Nat → Nat) :
    (updatedOp st bytes).2 = (st.isInit && st.rawData)
  ∧ ((st.isInit && st.rawData) = true → ∀ k, k < NUM_TX * NUM_RX →
      (updatedOp st bytes).1.grid k
        = combineBytes (bytes (k / NUM_RX) (2 * (k % NUM_RX)))
                       (bytes (k / NUM_RX) (2 * (k % NUM_RX) + 1)))
  ∧ ((st.isInit && st.rawData) = false → (updatedOp st bytes).1 = st) := by
  refine ⟨?_, ?_, ?_⟩
  · by_cases h1 : st.isInit <;> by_cases h2 : st.rawData <;>
      simp [updatedOp, h1, h2]
  · intro hb k hk
    rw [Bool.and_eq_true] at hb
    obtain ⟨h1, h2⟩ := hb
    simp only [updatedOp, h1, h2, Bool.not_true, Bool.false_eq_true, if_false, if_true]
    exact getRawDataGrid_default bytes st.grid k hk
  · intro hb
    by_cases h1 : st.isInit
    · have h2 : st.rawData = false := by
        rcases Bool.and_eq_false_iff.mp hb with h | h
        · exact absurd h1 (by simp [h])
        · exact h
      simp [updatedOp, h1, h2]
    · simp [updatedOp, h1]

/-- Witness for claim C2: in an initialised raw-mode state a poll returns true
and cell 5 holds the combined sample of row 0 at offsets 10 and 11. -/
theorem claim_C2_witness :
    (updatedOp stRaw bytesW).1.grid 5
      = combineBytes (bytesW (5 / NUM_RX) (2 * (5 % NUM_RX)))
                     (bytesW (5 / NUM_RX) (2 * (5 % NUM_RX) + 1)) :=
  (claim_C2 stRaw bytesW).2.1 rfl 5 (by decide)

/-- Claim C3: a non-zero status of the initial mode-register write makes
init() return failure (true) with the object state unchanged; a zero status
makes it mark isInit, issue the auto-calibration write of 0x04 to register
0xA7, and return success (false); and the result never depends on the
calibration write's status, which is not checked. -/
theorem claim_C3 (st : SkinState) (status calStatus : Nat) :
    (status ≠ 0 →
        (initOp st status calStatus).2.1 = true
      ∧ (initOp st status calStatus).1 = st)
  ∧ (status = 0 →
        (initOp st status calStatus).1 = { st with isInit := true }
      ∧ (initOp st status calStatus).2.1 = false
      ∧ (0xA7, 0x04) ∈ (initOp st status calStatus).2.2)
  ∧ (∀ c1 c2 : Nat, initOp st status c1 = initOp st status c2) := by
  refine ⟨?_, ?_, fun c1 c2 => rfl⟩
  · intro h
    simp [initOp, h]
  · intro h
    simp [initOp, h]

/-- Witness for claim C3: status 1 fails leaving the fresh state unchanged;
status 0 issues the calibration write. -/
theorem claim_C3_witness :
    ((initOp initialState 1 0).2.1 = true
      ∧ (initOp initialState 1 0).1 = initialState)
  ∧ (0xA7, 0x04) ∈ (initOp initialState 0 0).2.2 :=
  ⟨(claim_C3 initialState 1 0).1 (by decide),
   ((claim_C3 initialState 0 0).2.1 rfl).2.2⟩

/-- Claim C10: init() signals with an inverted boolean convention: the
returned bool is true exactly when the mode-register write status is non-zero,
i.e. 1 (true) on failure and 0 (false) on success. -/
theorem claim_C10 (st : SkinState) (status calStatus : Nat) :
    (initOp st status calStatus).2.1 = decide (status ≠ 0) := by
  by_cases h : status = 0 <;> simp [initOp, h]

theorem runCalls_alloc_stable (cs : List Call) :
    ∀ st : SkinState, st.gridAlloc = true →
      (runCalls st cs).gridAlloc = true
    ∧ (runCalls st cs).allocCount = st.allocCount := by
  induction cs with
  | nil => intro st h; exact ⟨h, rfl⟩
  | cons c rest ih =>
    intro st h
    have hstep : (stepCall st c).gridAlloc = true
        ∧ (stepCall st c).allocCount = st.allocCount := by
      cases c with
      | init status cal =>
        by_cases hs : status = 0 <;> simp [stepCall, initOp, hs, h]
      | useRawData b =>
        by_cases hb : st.isInit && b <;> simp [stepCall, useRawDataOp, h, hb]
      | updated bytes =>
        by_cases h1 : st.isInit <;> by_cases h2 : st.rawData <;>
          simp [stepCall, updatedOp, h1, h2, h]
    have hrec := ih (stepCall st c) hstep.1
    simp only [runCalls, List.foldl_cons] at hrec ⊢
    exact ⟨hrec.1, by rw [hrec.2, hstep.2]⟩

theorem runCalls_alloc_fresh (cs : List Call) :
    ∀ st : SkinState, st.gridAlloc = false → st.allocCount = 0 →
      (runCalls st cs).allocCount = (if cs.any Call.isUseRaw then 1 else 0)
    ∧ (runCalls st cs).gridAlloc = cs.any Call.isUseRaw := by
  induction cs with
  | nil =>
    intro st h1 h2
    simp only [runCalls, List.foldl_nil, List.any_nil]
    exact ⟨by simp [h2], h1⟩
  | cons c rest ih =>
    intro st h1 h2
    simp only [runCalls, List.foldl_cons, List.any_cons]
    cases c with
    | init status cal =>
      have hg : (stepCall st (Call.init status cal)).gridAlloc = false := by
        by_cases hs : status = 0 <;> simp [stepCall, initOp, hs, h1]
      have hc : (stepCall st (Call.init status cal)).allocCount = 0 := by
        by_cases hs : status = 0 <;> simp [stepCall, initOp, hs, h2]
      have hrec := ih _ hg hc
      simp only [runCalls] at hrec
      simpa [Call.isUseRaw] using hrec
    | useRawData b =>
      have hg : (stepCall st (Call.useRawData b)).gridAlloc = true := by
        by_cases hb : st.isInit && b <;> simp [stepCall, useRawDataOp, h1, hb]
      have hc : (stepCall st (Call.useRawData b)).allocCount = 1 := by
        by_cases hb : st.isInit && b <;> simp [stepCall, useRawDataOp, h1, h2, hb]
      have hrec := runCalls_alloc_stable rest _ hg
      simp only [runCalls] at hrec
      simp only [Call.isUseRaw, Bool.true_or, if_true]
      exact ⟨by rw [hrec.2, hc], hrec.1⟩
    | updated bytes =>
      have hg : (stepCall st (Call.updated bytes)).gridAlloc = false := by
        by_cases hI : st.isInit <;> by_cases hr : st.rawData <;>
          simp [stepCall, updatedOp, hI, hr, h1]
      have hc : (stepCall st (Call.updated bytes)).allocCount = 0 := by
        by_cases hI : st.isInit <;> by_cases hr : st.rawData <;>
          simp [stepCall, updatedOp, hI, hr, h2]
      have hrec := ih _ hg hc
      simp only [runCalls] at hrec
      simpa [Call.isUseRaw] using hrec

/-- Claim C4: across any sequence of public calls on a fresh object, the grid
buffer is allocated exactly once — during the first useRawData call, whatever
its boolean argument — and is never freed or reallocated: after the trace the
allocation count is 1 when some useRawData call occurred and 0 otherwise, and
the pointer is non-null exactly in the former case. -/
theorem claim_C4 (cs : List Call) :
    (runCalls initialState cs).allocCount = (if cs.any Call.isUseRaw then 1 else 0)
  ∧ (runCalls initialState cs).gridAlloc = cs.any Call.isUseRaw :=
  runCalls_alloc_fresh cs initialState rfl rfl

theorem rawData_imp_alloc (cs : List Call) :
    ∀ st : SkinState, (st.rawData = true → st.gridAlloc = true) →
      (runCalls st cs).rawData = true → (runCalls st cs).gridAlloc = true := by
  induction cs with
  | nil => intro st h; exact h
  | cons c rest ih =>
    intro st h
    simp only [runCalls, List.foldl_cons]
    simp only [runCalls] at ih
    apply ih
    cases c with
    | init status cal =>
      intro hr
      by_cases hs : status = 0 <;> simp [stepCall, initOp, hs] at hr ⊢ <;> exact h hr
    | useRawData b =>
      intro _
      by_cases hg : st.gridAlloc <;> by_cases hb : st.isInit && b <;>
        simp [stepCall, useRawDataOp, hg, hb]
    | updated bytes =>
      intro hr
      by_cases h1 : st.isInit <;> by_cases h2 : st.rawData <;>
        simp [stepCall, updatedOp, h1, h2] at hr ⊢ <;> simp_all

theorem rawData_from_calls (cs : List Call) :
    ∀ st : SkinState, (runCalls st cs).rawData = true →
      st.rawData = true ∨ cs.any Call.isUseRaw = true := by
  induction cs with
  | nil => intro st h; exact Or.inl h
  | cons c rest ih =>
    intro st h
    simp only [runCalls, List.foldl_cons] at h
    simp only [runCalls] at ih
    simp only [List.any_cons]
    rcases ih _ h with hstep | hmem
    · cases c with
      | init status cal =>
        left
        by_cases hs : status = 0 <;> simp [stepCall, initOp, hs] at hstep <;> exact hstep
      | useRawData b =>
        right
        simp [Call.isUseRaw]
      | updated bytes =>
        left
        by_cases h1 : st.isInit <;> by_cases h2 : st.rawData <;>
          simp [stepCall, updatedOp, h1, h2] at hstep <;> simp_all
    · right
      simp [hmem]

theorem noRaw_grid_unchanged (cs : List Call) :
    ∀ st : SkinState, st.rawData = false → cs.any Call.isUseRaw = false →
      (runCalls st cs).grid = st.grid ∧ (runCalls st cs).rawData = false := by
  induction cs with
  | nil => intro st h1 _; exact ⟨rfl, h1⟩
  | cons c rest ih =>
    intro st h1 h2
    simp only [List.any_cons, Bool.or_eq_false_iff] at h2
    obtain ⟨h2c, h2rest⟩ := h2
    simp only [runCalls, List.foldl_cons]
    simp only [runCalls] at ih
    cases c with
    | init status cal =>
      have hs : (stepCall st (Call.init status cal)).grid = st.grid
          ∧ (stepCall st (Call.init status cal)).rawData = false := by
        by_cases hs0 : status = 0 <;> simp [stepCall, initOp, hs0, h1]
      have hrec := ih _ hs.2 h2rest
      exact ⟨by rw [hrec.1, hs.1], hrec.2⟩
    | useRawData b =>
      simp [Call.isUseRaw] at h2c
    | updated bytes =>
      have hs : (stepCall st (Call.updated bytes)).grid = st.grid
          ∧ (stepCall st (Call.updated bytes)).rawData = false := by
        by_cases hI : st.isInit <;> simp [stepCall, updatedOp, hI, h1]
      have hrec := ih _ hs.2 h2rest
      exact ⟨by rw [hrec.1, hs.1], hrec.2⟩

/-- Claim C8: in every public-call trace from a fresh object, a scan — the
only writer through the grid pointer — can happen only after the allocation
branch of useRawData has run: whenever updated() performs a scan the grid is
already allocated and some useRawData call occurs earlier in the trace, and a
trace containing no useRawData call leaves the grid contents untouched. -/
theorem claim_C8 (cs : List Call) (bytes : Nat → Nat → Nat) :
    ((updatedOp (runCalls initialState cs) bytes).2 = true →
        (runCalls initialState cs).gridAlloc = true
      ∧ cs.any Call.isUseRaw = true)
  ∧ (cs.any Call.isUseRaw = false →
        (runCalls initialState cs).grid = initialState.grid) := by
  constructor
  · intro h
    have hraw : (runCalls initialState cs).rawData = true := by
      by_cases h2 : (runCalls initialState cs).rawData
      · exact h2
      · exfalso
        by_cases h1 : (runCalls initialState cs).isInit <;>
          simp [updatedOp, h1, h2] at h
    constructor
    · exact rawData_imp_alloc cs initialState
        (fun hh => absurd hh (by simp [initialState])) hraw
    · rcases rawData_from_calls cs initialState hraw with hst | hm
      · exact absurd hst (by simp [initialState])
      · exact hm
  · intro h
    exact (noRaw_grid_unchanged cs initialState rfl h).1

/-- Witness for claim C8: after init then useRawData the grid is allocated and
a scan may run; a trace without useRawData leaves the grid untouched. -/
theorem claim_C8_witness :
    ((runCalls initialState csRaw).gridAlloc = true
      ∧ csRaw.any Call.isUseRaw = true)
  ∧ (runCalls initialState csNoRaw).grid = initialState.grid :=
  ⟨(claim_C8 csRaw bytesW).1 rfl, (claim_C8 csNoRaw bytesW).2 rfl⟩

end UnipdSkin
